import Mathlib

/-!
# Verification of the MDL (lispy-style) interpreter core

A shallow embedding of `src/mdl.py`: the tokenizer, the reader
(`read_from_tokens` / `parse`), the atom classifier (`atom`), the chained
environment (`Env`), user procedures (`Procedure`), and the evaluator
(the second, final definition of `eval` in the file, lines 201-226).

Python-specific conventions used throughout the embedding:
* Machine state is passed explicitly: environments are frames stored in a
  `Store` (a list of frames in creation order); an environment reference
  is an index into the store.  This models Python's sharing of mutable
  `Env` objects (closures capture an environment *by reference*).
* Uncaught Python exceptions are modelled as `Except` error values, one
  constructor per distinguishable exception raised by the source.
* Recursion in the source (the reader's descent and the evaluator's
  tree-walk) is modelled with an explicit fuel parameter; exhausted fuel
  is the `fuelOut` error, the analogue of exhausting the Python call
  stack.  Theorems quantify over fuel or prove fuel adequacy.
* Floating-point values are carried opaquely as their literal text; no
  claim exercises float arithmetic, and the embedding marks float
  operations as outside its scope (`unmodeledOp`) rather than guessing
  IEEE semantics.
-/

/-- Abstract syntax produced by the reader: `atom` yields ints, floats or
symbols; `read_from_tokens` yields nested lists.  (`Symbol = str` in the
source; a float is kept as its token text, see module comment.) -/
inductive Exp where
  | int : Int → Exp
  | float : String → Exp
  | sym : String → Exp
  | list : List Exp → Exp
deriving Repr

mutual
/-- Decidable equality for expressions (Python `==` on the AST atoms and
lists; used for dict keys and the evaluator's keyword dispatch). -/
def expDecEq : (a b : Exp) → Decidable (a = b)
  | .int a, .int b =>
    match decEq a b with
    | isTrue h => isTrue (congrArg Exp.int h)
    | isFalse h => isFalse (fun hh => h (Exp.int.inj hh))
  | .float a, .float b =>
    match decEq a b with
    | isTrue h => isTrue (congrArg Exp.float h)
    | isFalse h => isFalse (fun hh => h (Exp.float.inj hh))
  | .sym a, .sym b =>
    match decEq a b with
    | isTrue h => isTrue (congrArg Exp.sym h)
    | isFalse h => isFalse (fun hh => h (Exp.sym.inj hh))
  | .list a, .list b =>
    match expListDecEq a b with
    | isTrue h => isTrue (congrArg Exp.list h)
    | isFalse h => isFalse (fun hh => h (Exp.list.inj hh))
  | .int _, .float _ => isFalse (fun h => nomatch h)
  | .int _, .sym _ => isFalse (fun h => nomatch h)
  | .int _, .list _ => isFalse (fun h => nomatch h)
  | .float _, .int _ => isFalse (fun h => nomatch h)
  | .float _, .sym _ => isFalse (fun h => nomatch h)
  | .float _, .list _ => isFalse (fun h => nomatch h)
  | .sym _, .int _ => isFalse (fun h => nomatch h)
  | .sym _, .float _ => isFalse (fun h => nomatch h)
  | .sym _, .list _ => isFalse (fun h => nomatch h)
  | .list _, .int _ => isFalse (fun h => nomatch h)
  | .list _, .float _ => isFalse (fun h => nomatch h)
  | .list _, .sym _ => isFalse (fun h => nomatch h)

/-- Decidable equality for expression lists. -/
def expListDecEq : (a b : List Exp) → Decidable (a = b)
  | [], [] => isTrue rfl
  | [], _ :: _ => isFalse (fun h => nomatch h)
  | _ :: _, [] => isFalse (fun h => nomatch h)
  | a :: as, b :: bs =>
    match expDecEq a b, expListDecEq as bs with
    | isTrue h1, isTrue h2 => isTrue (by rw [h1, h2])
    | isFalse h1, _ => isFalse (fun hh => h1 (by injection hh))
    | isTrue _, isFalse h2 => isFalse (fun hh => h2 (by injection hh))
end

instance : DecidableEq Exp := expDecEq

/-- Errors raised by the reader, one constructor per Python exception site:
`SyntaxError('unexpected EOF while reading')` (line 40),
`SyntaxError('unexpected )')` (line 49), and the uncaught `IndexError`
from `tokens[0]` on an exhausted list (line 44).  `fuelOut` is the
modelling artefact for recursion depth (see module comment). -/
inductive ReadErr where
  | syntaxEofWhileReading
  | syntaxUnexpectedParen
  | indexError
  | fuelOut
deriving DecidableEq, Repr

/-- Python whitespace for `str.split()` (space, tab, newline, CR, VT, FF). -/
def pySpace (c : Char) : Bool :=
  c = ' ' ∨ c = '\t' ∨ c = '\n' ∨ c = '\r' ∨ c = '\x0b' ∨ c = '\x0c'

/-- `s.replace(bracket, ' '+bracket+' ')` for a single-character pattern:
each occurrence of `b` becomes `' ' b ' '`, all other characters kept. -/
def replaceBracket (b : Char) : List Char → List Char
  | [] => []
  | c :: cs => (if c = b then [' ', b, ' '] else [c]) ++ replaceBracket b cs

/-- The bracket characters the tokenizer isolates: `list("()<>")` (line 19). -/
def brackets : List Char := ['(', ')', '<', '>']

/-- The replacement loop of `tokenize` (lines 20-21). -/
def expandBrackets (cs : List Char) : List Char :=
  brackets.foldl (fun acc b => replaceBracket b acc) cs

/-- Worker for `str.split()`: `acc` holds the reversed characters of the
run currently being gathered; whitespace flushes a nonempty run, the end
of input flushes the final one, and empty runs are dropped. -/
def splitWsAux : List Char → List Char → List (List Char)
  | [], [] => []
  | [], acc => [acc.reverse]
  | c :: cs, acc =>
    if pySpace c then
      if acc.isEmpty then splitWsAux cs []
      else acc.reverse :: splitWsAux cs []
    else splitWsAux cs (c :: acc)

/-- `str.split()`: maximal runs of non-whitespace characters, in order;
empty runs are dropped. -/
def splitWs (cs : List Char) : List (List Char) :=
  splitWsAux cs []

/-- `tokenize(s)` (lines 16-22): surround each bracket character with
spaces, then split on whitespace. -/
def tokenize (s : String) : List String :=
  (splitWs (expandBrackets s.data)).map (fun cs => String.mk cs)

/-- Value of a nonempty all-digit character run (base 10). -/
def digitsVal : List Char → Option Nat
  | [] => none
  | c :: cs =>
    if c.isDigit then
      match cs with
      | [] => some (c.toNat - 48)
      | _ :: _ => (digitsVal cs).map (fun rest => (c.toNat - 48) * 10 ^ cs.length + rest)
    else none

/-- Python 2 `int(token)` on a whitespace-free token: optional sign, then
a nonempty digit run; anything else raises `ValueError` (`none` here).
(Reader tokens never contain whitespace, so stripping is not modelled.) -/
def pyIntParse (s : String) : Option Int :=
  match s.data with
  | '+' :: ds => (digitsVal ds).map (fun n => (n : Int))
  | '-' :: ds => (digitsVal ds).map (fun n => -(n : Int))
  | ds => (digitsVal ds).map (fun n => (n : Int))

/-- Digit-and-dot mantissa check: at least one digit, at most one dot,
no other characters. -/
def mantissaOk (cs : List Char) : Bool :=
  cs.any (fun c => c.isDigit) &&
    cs.all (fun c => c.isDigit ∨ c = '.') &&
    (cs.filter (fun c => c = '.')).length ≤ 1

/-- Optional-sign-prefixed nonempty digit run (float exponent part). -/
def exponentOk (cs : List Char) : Bool :=
  match cs with
  | '+' :: ds => (digitsVal ds).isSome
  | '-' :: ds => (digitsVal ds).isSome
  | ds => (digitsVal ds).isSome

/-- Python 2 `float(token)` success on a whitespace-free token: optional
sign, then `inf`/`infinity`/`nan` (any case) or a digits-with-dot mantissa
with optional `e`/`E` exponent. -/
def pyFloatParses (s : String) : Bool :=
  let cs := match s.data.map Char.toLower with
    | '+' :: r => r
    | '-' :: r => r
    | r => r
  if cs = ['i', 'n', 'f'] ∨ cs = ['i', 'n', 'f', 'i', 'n', 'i', 't', 'y'] ∨
      cs = ['n', 'a', 'n'] then true
  else
    let mant := cs.takeWhile (fun c => ¬ (c = 'e'))
    let rest := cs.dropWhile (fun c => ¬ (c = 'e'))
    match rest with
    | [] => mantissaOk mant
    | _ :: ex => mantissaOk mant && exponentOk ex

/-- `atom(token)` (lines 55-61): try `int`, then `float`, else `Symbol`. -/
def atom (t : String) : Exp :=
  match pyIntParse t with
  | some n => .int n
  | none => if pyFloatParses t then .float t else .sym t

mutual
/-- `read_from_tokens(tokens)` (lines 37-51), fuel-indexed.  Returns the
expression read together with the unconsumed tokens (the source mutates
the token list in place; the returned remainder models the list after
those pops). -/
def readFT : Nat → List String → Except ReadErr (Exp × List String)
  | 0, _ => .error .fuelOut
  | _ + 1, [] => .error .syntaxEofWhileReading
  | fuel + 1, t :: rest =>
    if t = "(" then readL fuel rest []
    else if t = ")" then .error .syntaxUnexpectedParen
    else .ok (atom t, rest)

/-- The `while tokens[0] != ')'` loop of `read_from_tokens` (lines 43-47):
`tokens[0]` on an exhausted list raises `IndexError`; a `)` head is popped
and the accumulated sub-expressions are returned; otherwise one expression
is read recursively and appended. -/
def readL : Nat → List String → List Exp → Except ReadErr (Exp × List String)
  | 0, _, _ => .error .fuelOut
  | _ + 1, [], _ => .error .indexError
  | fuel + 1, t :: rest, acc =>
    if t = ")" then .ok (.list acc, rest)
    else
      match readFT fuel (t :: rest) with
      | .error e => .error e
      | .ok (e, rest') => readL fuel rest' (acc ++ [e])
end

/-- `read_from_tokens` at its adequate fuel (proved sufficient below). -/
def read_from_tokens (ts : List String) : Except ReadErr (Exp × List String) :=
  readFT (2 * ts.length + 1) ts

/-- `parse(program)` (lines 33-35): tokenize then read one expression;
trailing tokens are discarded, as in the source. -/
def parseE (s : String) : Except ReadErr Exp :=
  (read_from_tokens (tokenize s)).map (fun p => p.1)

/-- Run-time values of the interpreter: numbers, Python booleans (from the
comparison builtins), `None` (the result of `define`/`set!` and of the
`eval` branches with no `return`), symbols and lists (from `quote`),
user procedures (`Procedure`: parameter expression, body, captured
environment reference), and built-in callables (identified by name). -/
inductive Value where
  | int : Int → Value
  | float : String → Value
  | bool : Bool → Value
  | none : Value
  | sym : String → Value
  | vlist : List Value → Value
  | closure : Exp → Exp → Nat → Value
  | builtin : String → Value

mutual
/-- Decidable equality for values. -/
def valDecEq : (a b : Value) → Decidable (a = b)
  | .int a, .int b =>
    match decEq a b with
    | isTrue h => isTrue (congrArg Value.int h)
    | isFalse h => isFalse (fun hh => h (Value.int.inj hh))
  | .float a, .float b =>
    match decEq a b with
    | isTrue h => isTrue (congrArg Value.float h)
    | isFalse h => isFalse (fun hh => h (Value.float.inj hh))
  | .bool a, .bool b =>
    match decEq a b with
    | isTrue h => isTrue (congrArg Value.bool h)
    | isFalse h => isFalse (fun hh => h (Value.bool.inj hh))
  | .none, .none => isTrue rfl
  | .sym a, .sym b =>
    match decEq a b with
    | isTrue h => isTrue (congrArg Value.sym h)
    | isFalse h => isFalse (fun hh => h (Value.sym.inj hh))
  | .vlist a, .vlist b =>
    match valListDecEq a b with
    | isTrue h => isTrue (congrArg Value.vlist h)
    | isFalse h => isFalse (fun hh => h (Value.vlist.inj hh))
  | .closure p1 b1 e1, .closure p2 b2 e2 =>
    match decEq p1 p2, decEq b1 b2, decEq e1 e2 with
    | isTrue h1, isTrue h2, isTrue h3 => isTrue (by rw [h1, h2, h3])
    | isFalse h1, _, _ => isFalse (fun hh => h1 (by injection hh))
    | isTrue _, isFalse h2, _ => isFalse (fun hh => h2 (by injection hh))
    | isTrue _, isTrue _, isFalse h3 => isFalse (fun hh => h3 (by injection hh))
  | .builtin a, .builtin b =>
    match decEq a b with
    | isTrue h => isTrue (congrArg Value.builtin h)
    | isFalse h => isFalse (fun hh => h (Value.builtin.inj hh))
  | .int _, .float _ => isFalse (fun h => nomatch h)
  | .int _, .bool _ => isFalse (fun h => nomatch h)
  | .int _, .none => isFalse (fun h => nomatch h)
  | .int _, .sym _ => isFalse (fun h => nomatch h)
  | .int _, .vlist _ => isFalse (fun h => nomatch h)
  | .int _, .closure _ _ _ => isFalse (fun h => nomatch h)
  | .int _, .builtin _ => isFalse (fun h => nomatch h)
  | .float _, .int _ => isFalse (fun h => nomatch h)
  | .float _, .bool _ => isFalse (fun h => nomatch h)
  | .float _, .none => isFalse (fun h => nomatch h)
  | .float _, .sym _ => isFalse (fun h => nomatch h)
  | .float _, .vlist _ => isFalse (fun h => nomatch h)
  | .float _, .closure _ _ _ => isFalse (fun h => nomatch h)
  | .float _, .builtin _ => isFalse (fun h => nomatch h)
  | .bool _, .int _ => isFalse (fun h => nomatch h)
  | .bool _, .float _ => isFalse (fun h => nomatch h)
  | .bool _, .none => isFalse (fun h => nomatch h)
  | .bool _, .sym _ => isFalse (fun h => nomatch h)
  | .bool _, .vlist _ => isFalse (fun h => nomatch h)
  | .bool _, .closure _ _ _ => isFalse (fun h => nomatch h)
  | .bool _, .builtin _ => isFalse (fun h => nomatch h)
  | .none, .int _ => isFalse (fun h => nomatch h)
  | .none, .float _ => isFalse (fun h => nomatch h)
  | .none, .bool _ => isFalse (fun h => nomatch h)
  | .none, .sym _ => isFalse (fun h => nomatch h)
  | .none, .vlist _ => isFalse (fun h => nomatch h)
  | .none, .closure _ _ _ => isFalse (fun h => nomatch h)
  | .none, .builtin _ => isFalse (fun h => nomatch h)
  | .sym _, .int _ => isFalse (fun h => nomatch h)
  | .sym _, .float _ => isFalse (fun h => nomatch h)
  | .sym _, .bool _ => isFalse (fun h => nomatch h)
  | .sym _, .none => isFalse (fun h => nomatch h)
  | .sym _, .vlist _ => isFalse (fun h => nomatch h)
  | .sym _, .closure _ _ _ => isFalse (fun h => nomatch h)
  | .sym _, .builtin _ => isFalse (fun h => nomatch h)
  | .vlist _, .int _ => isFalse (fun h => nomatch h)
  | .vlist _, .float _ => isFalse (fun h => nomatch h)
  | .vlist _, .bool _ => isFalse (fun h => nomatch h)
  | .vlist _, .none => isFalse (fun h => nomatch h)
  | .vlist _, .sym _ => isFalse (fun h => nomatch h)
  | .vlist _, .closure _ _ _ => isFalse (fun h => nomatch h)
  | .vlist _, .builtin _ => isFalse (fun h => nomatch h)
  | .closure _ _ _, .int _ => isFalse (fun h => nomatch h)
  | .closure _ _ _, .float _ => isFalse (fun h => nomatch h)
  | .closure _ _ _, .bool _ => isFalse (fun h => nomatch h)
  | .closure _ _ _, .none => isFalse (fun h => nomatch h)
  | .closure _ _ _, .sym _ => isFalse (fun h => nomatch h)
  | .closure _ _ _, .vlist _ => isFalse (fun h => nomatch h)
  | .closure _ _ _, .builtin _ => isFalse (fun h => nomatch h)
  | .builtin _, .int _ => isFalse (fun h => nomatch h)
  | .builtin _, .float _ => isFalse (fun h => nomatch h)
  | .builtin _, .bool _ => isFalse (fun h => nomatch h)
  | .builtin _, .none => isFalse (fun h => nomatch h)
  | .builtin _, .sym _ => isFalse (fun h => nomatch h)
  | .builtin _, .vlist _ => isFalse (fun h => nomatch h)
  | .builtin _, .closure _ _ _ => isFalse (fun h => nomatch h)

/-- Decidable equality for value lists. -/
def valListDecEq : (a b : List Value) → Decidable (a = b)
  | [], [] => isTrue rfl
  | [], _ :: _ => isFalse (fun h => nomatch h)
  | _ :: _, [] => isFalse (fun h => nomatch h)
  | a :: as, b :: bs =>
    match valDecEq a b, valListDecEq as bs with
    | isTrue h1, isTrue h2 => isTrue (by rw [h1, h2])
    | isFalse h1, _ => isFalse (fun hh => h1 (by injection hh))
    | isTrue _, isFalse h2 => isFalse (fun hh => h2 (by injection hh))
end

instance : DecidableEq Value := valDecEq

/-- Decidable equality on `Except`, so that concrete runs of the embedded
functions can be settled by `decide`. -/
instance exceptDecEq {ε α : Type} [DecidableEq ε] [DecidableEq α] :
    DecidableEq (Except ε α) := fun x y =>
  match x, y with
  | .ok a, .ok b =>
    match decEq a b with
    | isTrue h => isTrue (by rw [h])
    | isFalse h => isFalse (fun hh => h (by injection hh))
  | .error a, .error b =>
    match decEq a b with
    | isTrue h => isTrue (by rw [h])
    | isFalse h => isFalse (fun hh => h (by injection hh))
  | .ok _, .error _ => isFalse (fun h => nomatch h)
  | .error _, .ok _ => isFalse (fun h => nomatch h)

/-- Errors raised during evaluation, one constructor per distinguishable
Python exception of the source:
* `attrNoneFind` — `AttributeError` from `self.outer.find(var)` when
  `outer` is `None` (line 188): the failure of an unbound-variable lookup,
  the spec's "UnboundVariableError";
* `indexError` — `IndexError` from `x[0]` when evaluating the empty list;
* `unpackError` — `ValueError` from a special form's tuple unpacking
  (e.g. `(_, test, conseq, alt) = x` with the wrong length);
* `typeErrorUnhashable` — `TypeError` from using a list as a dict key;
* `notCallable` — `TypeError` from calling a non-callable value;
* `typeError` — `TypeError` from a builtin applied to wrong arguments;
* `keyError`, `badRef` — unreachable totalisation branches (`env[x]` right
  after a successful `find`, and a dangling frame index);
* `zeroDiv` — `ZeroDivisionError` from `op.div`;
* `nameErrorNumber` — `NameError` from the `number?` builtin (the source
  references an undefined name `Number` on line 107);
* `unmodeledOp` — an operation whose Python result is outside this
  embedding (float arithmetic, object-identity tests, higher-order
  builtins); no claim exercises these;
* `fuelOut` — out of fuel (the Python stack-depth analogue). -/
inductive EvalErr where
  | attrNoneFind
  | indexError
  | unpackError
  | typeErrorUnhashable
  | notCallable
  | typeError
  | keyError
  | badRef
  | zeroDiv
  | nameErrorNumber
  | unmodeledOp
  | fuelOut
deriving DecidableEq, Repr

/-- One `Env` object (lines 181-188): an insertion-ordered dict of
key-value pairs plus the `outer` reference (an index into the store, or
`none` for the global environment). -/
structure Frame where
  table : List (Exp × Value)
  outer : Option Nat
deriving DecidableEq

/-- The heap of environment frames, in creation order; an environment
reference is an index into this list.  This models Python's mutable,
shared `Env` objects. -/
abbrev Store := List Frame

/-- Python dict lookup (`self[var]`, `var in self`) on the ordered table. -/
def dictGet (t : List (Exp × Value)) (k : Exp) : Option Value :=
  match t with
  | [] => Option.none
  | (k', v) :: rest => if k' = k then some v else dictGet rest k

/-- Python dict store (`self[var] = val`): overwrite in place if the key
is present, else append. -/
def dictSet (t : List (Exp × Value)) (k : Exp) (v : Value) : List (Exp × Value) :=
  match t with
  | [] => [(k, v)]
  | (k', v') :: rest => if k' = k then (k, v) :: rest else (k', v') :: dictSet rest k v

/-- Overwrite one binding of frame `i` in the store (`env[var] = val` on
the frame an index refers to); a dangling index is a no-op (unreachable
from real runs). -/
def updFrame (st : Store) (i : Nat) (k : Exp) (v : Value) : Store :=
  match st.get? i with
  | some f => st.set i ⟨dictSet f.table k v, f.outer⟩
  | Option.none => st

/-- `Env.find(var)` (lines 186-188): return `self` if `var in self`, else
recurse into `outer`; `outer = None` raises `AttributeError`
(`attrNoneFind`).  A list-valued `var` is unhashable, so the very first
membership test raises `TypeError`.  Fuel-indexed; the caller passes
`st.length + 1`, which is adequate for well-formed stores. -/
def findIdx : Nat → Store → Option Nat → Exp → Except EvalErr Nat
  | _, _, _, .list _ => .error .typeErrorUnhashable
  | 0, _, _, _ => .error .fuelOut
  | _ + 1, _, Option.none, _ => .error .attrNoneFind
  | fuel + 1, st, some i, var =>
    match st.get? i with
    | Option.none => .error .badRef
    | some f =>
      if (dictGet f.table var).isSome then .ok i
      else findIdx fuel st f.outer var

/-- Numerically-zero Python float literal (all mantissa digits `0`). -/
def pyFloatIsZero (s : String) : Bool :=
  let cs := match s.data with
    | '+' :: r => r
    | '-' :: r => r
    | r => r
  let digs := (cs.takeWhile (fun c => ¬ (c = 'e' ∨ c = 'E'))).filter (fun c => ¬ (c = '.'))
  ¬ digs = [] && digs.all (fun c => c = '0')

/-- Python truthiness, as used by `if eval(test, env)` (line 212): `False`,
numeric zero, `None`, the empty list, and the empty string are falsy;
everything else is truthy. -/
def pyTruthy : Value → Bool
  | .bool b => b
  | .int n => ¬ n = 0
  | .float s => ¬ pyFloatIsZero s
  | .none => false
  | .sym s => ¬ s = ""
  | .vlist l => ¬ l.isEmpty
  | .closure _ _ _ => true
  | .builtin _ => true

mutual
/-- The evaluator's `return exp` for `quote` (line 209) hands the AST node
itself back as a value; expressions and values share one universe in
Python, so the embedding converts structurally. -/
def expToVal : Exp → Value
  | .int n => .int n
  | .float s => .float s
  | .sym s => .sym s
  | .list l => .vlist (expToValList l)

/-- Structural conversion of an expression list. -/
def expToValList : List Exp → List Value
  | [] => []
  | e :: es => expToVal e :: expToValList es
end

/-- Python 2 arithmetic treats `bool` as an `int` subtype. -/
def asIntLike : Value → Option Int
  | .int n => some n
  | .bool b => some (if b then 1 else 0)
  | _ => Option.none

/-- A value Python reports as callable (`Procedure` instances and the
built-in callables of the standard environment). -/
def isCallable : Value → Bool
  | .closure _ _ _ => true
  | .builtin _ => true
  | _ => false

mutual
/-- Python `==` on values, partially: `none` where the result depends on
float numerics or object identity (marked `unmodeledOp` by the caller). -/
def pyEq : Value → Value → Option Bool
  | .int a, .int b => some (a = b)
  | .int a, .bool b => some (a = (if b then 1 else 0))
  | .bool a, .int b => some ((if a then (1 : Int) else 0) = b)
  | .bool a, .bool b => some (a = b)
  | .none, .none => some true
  | .none, .int _ => some false
  | .none, .bool _ => some false
  | .none, .sym _ => some false
  | .none, .vlist _ => some false
  | .int _, .none => some false
  | .bool _, .none => some false
  | .sym _, .none => some false
  | .vlist _, .none => some false
  | .sym a, .sym b => some (a = b)
  | .sym _, .int _ => some false
  | .sym _, .bool _ => some false
  | .sym _, .vlist _ => some false
  | .int _, .sym _ => some false
  | .bool _, .sym _ => some false
  | .vlist _, .sym _ => some false
  | .int _, .vlist _ => some false
  | .bool _, .vlist _ => some false
  | .vlist _, .int _ => some false
  | .vlist _, .bool _ => some false
  | .vlist a, .vlist b => pyEqList a b
  | _, _ => Option.none

/-- Elementwise Python `==` on lists. -/
def pyEqList : List Value → List Value → Option Bool
  | [], [] => some true
  | [], _ :: _ => some false
  | _ :: _, [] => some false
  | a :: as, b :: bs =>
    match pyEq a b with
    | some true => pyEqList as bs
    | some false => some false
    | Option.none => Option.none
end

/-- The built-in callables installed by `standard_env()` (lines 83-112),
applied to already-evaluated arguments.  Exact where a claim needs it
(integer arithmetic and comparisons, list primitives, predicates); float
arithmetic, object identity (`eq?`), and the higher-order builtins
(`apply`, `map`) and math functions are `unmodeledOp` (see `EvalErr`). -/
def applyBuiltin (name : String) (args : List Value) : Except EvalErr Value :=
  if name = "+" ∨ name = "append" then
    match args with
    | [a, b] =>
      match asIntLike a, asIntLike b with
      | some x, some y => .ok (.int (x + y))
      | _, _ =>
        match a, b with
        | .vlist xs, .vlist ys => .ok (.vlist (xs ++ ys))
        | _, _ => .error .unmodeledOp
    | _ => .error .typeError
  else if name = "-" then
    match args with
    | [a, b] =>
      match asIntLike a, asIntLike b with
      | some x, some y => .ok (.int (x - y))
      | _, _ => .error .unmodeledOp
    | _ => .error .typeError
  else if name = "*" then
    match args with
    | [a, b] =>
      match asIntLike a, asIntLike b with
      | some x, some y => .ok (.int (x * y))
      | _, _ => .error .unmodeledOp
    | _ => .error .typeError
  else if name = "/" then
    match args with
    | [a, b] =>
      match asIntLike a, asIntLike b with
      | some x, some y =>
        if y = 0 then .error .zeroDiv else .ok (.int (Int.fdiv x y))
      | _, _ => .error .unmodeledOp
    | _ => .error .typeError
  else if name = ">" then
    match args with
    | [a, b] =>
      match asIntLike a, asIntLike b with
      | some x, some y => .ok (.bool (y < x))
      | _, _ => .error .unmodeledOp
    | _ => .error .typeError
  else if name = "<" then
    match args with
    | [a, b] =>
      match asIntLike a, asIntLike b with
      | some x, some y => .ok (.bool (x < y))
      | _, _ => .error .unmodeledOp
    | _ => .error .typeError
  else if name = ">=" then
    match args with
    | [a, b] =>
      match asIntLike a, asIntLike b with
      | some x, some y => .ok (.bool (y ≤ x))
      | _, _ => .error .unmodeledOp
    | _ => .error .typeError
  else if name = "<=" then
    match args with
    | [a, b] =>
      match asIntLike a, asIntLike b with
      | some x, some y => .ok (.bool (x ≤ y))
      | _, _ => .error .unmodeledOp
    | _ => .error .typeError
  else if name = "=" ∨ name = "equal?" then
    match args with
    | [a, b] =>
      match pyEq a b with
      | some r => .ok (.bool r)
      | Option.none => .error .unmodeledOp
    | _ => .error .typeError
  else if name = "abs" then
    match args with
    | [a] =>
      match asIntLike a with
      | some x => .ok (.int |x|)
      | Option.none => .error .unmodeledOp
    | _ => .error .typeError
  else if name = "begin" then
    match args.getLast? with
    | some v => .ok v
    | Option.none => .error .indexError
  else if name = "car" then
    match args with
    | [.vlist (h :: _)] => .ok h
    | [.vlist []] => .error .indexError
    | [.sym s] =>
      match s.data with
      | c :: _ => .ok (.sym (String.mk [c]))
      | [] => .error .indexError
    | [_] => .error .typeError
    | _ => .error .typeError
  else if name = "cdr" then
    match args with
    | [.vlist l] => .ok (.vlist (l.drop 1))
    | [.sym s] => .ok (.sym (String.mk (s.data.drop 1)))
    | [_] => .error .typeError
    | _ => .error .typeError
  else if name = "cons" then
    match args with
    | [x, .vlist ys] => .ok (.vlist (x :: ys))
    | [_, _] => .error .typeError
    | _ => .error .typeError
  else if name = "eq?" then
    match args with
    | [.none, .none] => .ok (.bool true)
    | [.bool a, .bool b] => .ok (.bool (a = b))
    | [_, _] => .error .unmodeledOp
    | _ => .error .typeError
  else if name = "length" then
    match args with
    | [.vlist l] => .ok (.int l.length)
    | [.sym s] => .ok (.int s.length)
    | [_] => .error .typeError
    | _ => .error .typeError
  else if name = "list" then
    .ok (.vlist args)
  else if name = "list?" then
    match args with
    | [.vlist _] => .ok (.bool true)
    | [_] => .ok (.bool false)
    | _ => .error .typeError
  else if name = "max" then
    match args with
    | [a, b] =>
      match asIntLike a, asIntLike b with
      | some x, some y => .ok (.int (max x y))
      | _, _ => .error .unmodeledOp
    | _ => .error .unmodeledOp
  else if name = "min" then
    match args with
    | [a, b] =>
      match asIntLike a, asIntLike b with
      | some x, some y => .ok (.int (min x y))
      | _, _ => .error .unmodeledOp
    | _ => .error .unmodeledOp
  else if name = "not" then
    match args with
    | [a] => .ok (.bool (¬ pyTruthy a))
    | _ => .error .typeError
  else if name = "null?" then
    match args with
    | [.vlist []] => .ok (.bool true)
    | [_] => .ok (.bool false)
    | _ => .error .typeError
  else if name = "number?" then
    match args with
    | [_] => .error .nameErrorNumber
    | _ => .error .typeError
  else if name = "procedure?" then
    match args with
    | [a] => .ok (.bool (isCallable a))
    | _ => .error .typeError
  else if name = "symbol?" then
    match args with
    | [.sym _] => .ok (.bool true)
    | [_] => .ok (.bool false)
    | _ => .error .typeError
  else
    .error .unmodeledOp

/-- The bindings `env.update(vars(math))` contributes (line 86).  The math
module's contents are supplied by the Python runtime, not by the source
text; a representative subset (the constants as literal-text floats, the
functions as builtin callables, plus the module's `__name__` string) is
modelled — no claim depends on these entries beyond their presence or
absence of specific names. -/
def mathPairs : List (Exp × Value) :=
  [(.sym "__name__", .sym "math"),
   (.sym "pi", .float "3.141592653589793"),
   (.sym "e", .float "2.718281828459045"),
   (.sym "sqrt", .builtin "sqrt"),
   (.sym "sin", .builtin "sin"),
   (.sym "cos", .builtin "cos"),
   (.sym "tan", .builtin "tan"),
   (.sym "exp", .builtin "exp"),
   (.sym "log", .builtin "log"),
   (.sym "floor", .builtin "floor"),
   (.sym "ceil", .builtin "ceil"),
   (.sym "fabs", .builtin "fabs"),
   (.sym "pow", .builtin "pow"),
   (.sym "atan", .builtin "atan")]

/-- The explicit operator table of `standard_env()` (lines 87-111), in
source order. -/
def opPairs : List (Exp × Value) :=
  [(.sym "+", .builtin "+"),
   (.sym "-", .builtin "-"),
   (.sym "*", .builtin "*"),
   (.sym "/", .builtin "/"),
   (.sym ">", .builtin ">"),
   (.sym "<", .builtin "<"),
   (.sym ">=", .builtin ">="),
   (.sym "<=", .builtin "<="),
   (.sym "=", .builtin "="),
   (.sym "abs", .builtin "abs"),
   (.sym "append", .builtin "append"),
   (.sym "apply", .builtin "apply"),
   (.sym "begin", .builtin "begin"),
   (.sym "car", .builtin "car"),
   (.sym "cdr", .builtin "cdr"),
   (.sym "cons", .builtin "cons"),
   (.sym "eq?", .builtin "eq?"),
   (.sym "equal?", .builtin "equal?"),
   (.sym "length", .builtin "length"),
   (.sym "list", .builtin "list"),
   (.sym "list?", .builtin "list?"),
   (.sym "map", .builtin "map"),
   (.sym "max", .builtin "max"),
   (.sym "min", .builtin "min"),
   (.sym "not", .builtin "not"),
   (.sym "null?", .builtin "null?"),
   (.sym "number?", .builtin "number?"),
   (.sym "procedure?", .builtin "procedure?"),
   (.sym "round", .builtin "round"),
   (.sym "symbol?", .builtin "symbol?")]

/-- `standard_env()` (lines 83-112): an empty dict updated first with
`vars(math)`, then with the operator table. -/
def standardTable : List (Exp × Value) :=
  (mathPairs ++ opPairs).foldl (fun t kv => dictSet t kv.1 kv.2) []

/-- `global_env = standard_env()` (line 190): the store at process start
holds the single global frame, with no outer environment. -/
def globalStore : Store := [⟨standardTable, Option.none⟩]

/-- `zip(parms, args)` in `Env.__init__` (line 184): positional pairing,
silently truncating to the shorter sequence (Python 2 `zip`). -/
def pyZip : List Exp → List Value → List (Exp × Value)
  | k :: ks, v :: vs => (k, v) :: pyZip ks vs
  | _, _ => []

/-- `self.update(zip(parms, args))` of `Env.__init__` (lines 183-185):
insert the zipped pairs in order into a fresh dict; hashing a list key
raises `TypeError`.  Note there is no length check: extra arguments are
dropped and extra parameters stay unbound. -/
def envInitTable (ks : List Exp) (args : List Value) : Except EvalErr (List (Exp × Value)) :=
  (pyZip ks args).foldlM
    (fun t kv =>
      match kv.1 with
      | .list _ => .error .typeErrorUnhashable
      | _ => .ok (dictSet t kv.1 kv.2))
    []

/-- The iteration `zip` performs over `self.parms` in `Procedure.__call__`
(line 172): a list yields its elements; a string (`Symbol`) yields its
characters as one-character strings (Python 2 string iteration); a number
is not iterable (`TypeError`). -/
def paramKeys : Exp → Except EvalErr (List Exp)
  | .list l => .ok l
  | .sym s => .ok (s.data.map (fun c => Exp.sym (String.mk [c])))
  | _ => .error .typeError

mutual
/-- `eval(x, env)` (lines 201-226), fuel-indexed (see module comment).
Branches in source order: symbol → `env.find(x)[x]`; non-list → the
constant itself; then dispatch on `x[0]` for `quote`, `if`, `define`,
`set!`, `lambda`; otherwise procedure application.  `x[0]` on the empty
list raises `IndexError`.  The `define` and `set!` branches fall off the
function's end, returning Python `None`. -/
def evalE : Nat → Exp → Nat → Store → Except EvalErr (Value × Store)
  | 0, _, _, _ => .error .fuelOut
  | _ + 1, .sym s, env, st =>
    match findIdx (st.length + 1) st (some env) (.sym s) with
    | .error e => .error e
    | .ok i =>
      match st.get? i with
      | Option.none => .error .badRef
      | some f =>
        match dictGet f.table (.sym s) with
        | some v => .ok (v, st)
        | Option.none => .error .keyError
  | _ + 1, .int n, _, st => .ok (.int n, st)
  | _ + 1, .float s, _, st => .ok (.float s, st)
  | fuel + 1, .list l, env, st =>
    match l with
    | [] => .error .indexError
    | kw :: rest =>
      if kw = Exp.sym "quote" then
        match rest with
        | [e] => .ok (expToVal e, st)
        | _ => .error .unpackError
      else if kw = Exp.sym "if" then
        match rest with
        | [t, c, a] =>
          match evalE fuel t env st with
          | .error e => .error e
          | .ok (v, st1) => evalE fuel (if pyTruthy v then c else a) env st1
        | _ => .error .unpackError
      else if kw = Exp.sym "define" then
        match rest with
        | [vr, e] =>
          match evalE fuel e env st with
          | .error er => .error er
          | .ok (val, st1) =>
            match vr with
            | .list _ => .error .typeErrorUnhashable
            | _ => .ok (.none, updFrame st1 env vr val)
        | _ => .error .unpackError
      else if kw = Exp.sym "set!" then
        match rest with
        | [vr, e] =>
          match evalE fuel e env st with
          | .error er => .error er
          | .ok (val, st1) =>
            match findIdx (st1.length + 1) st1 (some env) vr with
            | .error er => .error er
            | .ok i => .ok (.none, updFrame st1 i vr val)
        | _ => .error .unpackError
      else if kw = Exp.sym "lambda" then
        match rest with
        | [p, b] => .ok (.closure p b env, st)
        | _ => .error .unpackError
      else
        match evalE fuel kw env st with
        | .error e => .error e
        | .ok (procv, st1) =>
          match evalArgs fuel rest env st1 with
          | .error e => .error e
          | .ok (argvs, st2) => callValue fuel procv argvs st2

/-- `[eval(arg, env) for arg in x[1:]]` (line 225): left-to-right argument
evaluation, threading the store. -/
def evalArgs : Nat → List Exp → Nat → Store → Except EvalErr (List Value × Store)
  | 0, _, _, _ => .error .fuelOut
  | _ + 1, [], _, st => .ok ([], st)
  | fuel + 1, a :: as, env, st =>
    match evalE fuel a env st with
    | .error e => .error e
    | .ok (v, st1) =>
      match evalArgs fuel as env st1 with
      | .error e => .error e
      | .ok (vs, st2) => .ok (v :: vs, st2)

/-- `proc(*args)` (line 226).  A `Procedure` runs `Procedure.__call__`
(lines 171-172): build `Env(self.parms, args, self.env)` — a fresh frame
whose dict is the zip-truncated pairing and whose outer reference is the
captured environment — append it to the store, and evaluate the body
there.  A builtin invokes the native table.  Anything else raises
`TypeError: not callable`. -/
def callValue : Nat → Value → List Value → Store → Except EvalErr (Value × Store)
  | 0, _, _, _ => .error .fuelOut
  | fuel + 1, .closure parms body cenv, args, st =>
    match paramKeys parms with
    | .error e => .error e
    | .ok ks =>
      match envInitTable ks args with
      | .error e => .error e
      | .ok table => evalE fuel body st.length (st ++ [⟨table, some cenv⟩])
  | _ + 1, .builtin name, args, st =>
    match applyBuiltin name args with
    | .error e => .error e
    | .ok v => .ok (v, st)
  | _ + 1, _, _, _ => .error .notCallable
end

/-- Inserting a binding makes it the one `dictGet` finds. -/
theorem dictGet_dictSet_self (t : List (Exp × Value)) (k : Exp) (v : Value) :
    dictGet (dictSet t k v) k = some v := by
  induction t with
  | nil => simp [dictSet, dictGet]
  | cons kv rest ih =>
    obtain ⟨k', v'⟩ := kv
    by_cases h : k' = k
    · simp [dictSet, dictGet, h]
    · simp [dictSet, dictGet, h, ih]

/-- `List.set` at a valid index is seen by `get?` at that index. -/
theorem get?_set_self_fr (l : Store) (i : Nat) (f : Frame) (h : i < l.length) :
    (l.set i f).get? i = some f := by
  simp [List.get?_eq_getElem?, List.getElem?_set_self, h]

/-- `List.set` leaves every other index unchanged. -/
theorem get?_set_other_fr (l : Store) (i j : Nat) (f : Frame) (h : ¬ i = j) :
    (l.set i f).get? j = l.get? j := by
  simp [List.get?_eq_getElem?, List.getElem?_set_ne h]

/-- `updFrame` touches no frame other than the one at the given index. -/
theorem updFrame_get_other (st : Store) (i j : Nat) (k : Exp) (v : Value)
    (h : ¬ i = j) : (updFrame st i k v).get? j = st.get? j := by
  unfold updFrame
  cases hg : st.get? i with
  | none => rfl
  | some f => exact get?_set_other_fr st i j _ h

/-- Store well-formedness from position `k` on: each frame's outer
reference points strictly below its own index.  Every store the
interpreter builds satisfies this (the global frame has no outer, and a
call frame's outer is an index that already existed). -/
def wfFrom : Nat → List Frame → Bool
  | _, [] => true
  | i, f :: rest =>
    (match f.outer with
     | Option.none => true
     | some j => decide (j < i)) && wfFrom (i + 1) rest

/-- Store well-formedness: outer references strictly decrease. -/
def wfStore (st : Store) : Bool := wfFrom 0 st

/-- Extraction from `wfFrom`: a frame found at offset `m` has its outer
reference below `k + m`. -/
theorem wfFrom_get : ∀ (fs : List Frame) (k m : Nat) (f : Frame) (j : Nat),
    wfFrom k fs = true → fs.get? m = some f → f.outer = some j → j < k + m := by
  intro fs
  induction fs with
  | nil => intro k m f j _ hg; simp [List.get?] at hg
  | cons f0 rest ih =>
    intro k m f j hwf hg ho
    simp only [wfFrom, Bool.and_eq_true] at hwf
    cases m with
    | zero =>
      simp only [List.get?] at hg
      cases hg
      rw [ho] at hwf
      simpa using hwf.1
    | succ m' =>
      simp only [List.get?] at hg
      have := ih (k + 1) m' f j hwf.2 hg ho
      omega

/-- Extraction from `wfStore`: outer references strictly decrease. -/
theorem wfStore_get (st : Store) (i : Nat) (f : Frame) (j : Nat)
    (hwf : wfStore st = true) (hg : st.get? i = some f) (ho : f.outer = some j) :
    j < i := by
  have := wfFrom_get st 0 i f j hwf hg ho
  omega

/-- A symbol is bound in no frame of the chain starting at the given
environment reference (the hypothesis of the unbound-variable claims). -/
inductive UnboundIn (st : Store) (var : Exp) : Option Nat → Prop where
  | root : UnboundIn st var Option.none
  | step {i : Nat} {f : Frame} :
      st.get? i = some f → dictGet f.table var = Option.none →
      UnboundIn st var f.outer → UnboundIn st var (some i)

/-- The chain starting at the given reference first contains `var` at
frame `r`: every frame passed on the way lacks it (`find`'s "innermost
environment where var appears"). -/
inductive ResolvesTo (st : Store) (var : Exp) : Option Nat → Nat → Prop where
  | here {i : Nat} {f : Frame} :
      st.get? i = some f → (dictGet f.table var).isSome = true →
      ResolvesTo st var (some i) i
  | there {i : Nat} {f : Frame} {r : Nat} :
      st.get? i = some f → dictGet f.table var = Option.none →
      ResolvesTo st var f.outer r → ResolvesTo st var (some i) r

/-- On a well-formed store, `find` on a chain that nowhere binds the
symbol reaches `outer = None` and raises the `AttributeError`
(`attrNoneFind`), given fuel at least the chain length. -/
theorem findIdx_unbound : ∀ (env : Nat) (fuel : Nat) (st : Store) (s : String),
    wfStore st = true → env + 2 ≤ fuel → UnboundIn st (.sym s) (some env) →
    findIdx fuel st (some env) (.sym s) = .error .attrNoneFind := by
  intro env
  induction env using Nat.strong_induction_on with
  | _ env IH =>
    intro fuel st s hwf hfuel hub
    cases hub with
    | step hget hdict houter =>
      rename_i f
      obtain ⟨fu, rfl⟩ : ∃ fu, fuel = fu + 1 := ⟨fuel - 1, by omega⟩
      simp only [findIdx, hget, hdict, Option.isSome_none, Bool.false_eq_true,
        if_false]
      cases ho : f.outer with
      | none =>
        rw [ho] at houter
        obtain ⟨fu', rfl⟩ : ∃ fu', fu = fu' + 1 := ⟨fu - 1, by omega⟩
        rfl
      | some j =>
        rw [ho] at houter
        have hj : j < env := wfStore_get st env f j hwf hget ho
        exact IH j hj fu st s hwf (by omega) houter

/-- On a well-formed store, `find` returns exactly the innermost frame of
the chain containing the symbol. -/
theorem findIdx_resolves : ∀ (env : Nat) (fuel : Nat) (st : Store) (s : String) (r : Nat),
    wfStore st = true → env + 2 ≤ fuel → ResolvesTo st (.sym s) (some env) r →
    findIdx fuel st (some env) (.sym s) = .ok r := by
  intro env
  induction env using Nat.strong_induction_on with
  | _ env IH =>
    intro fuel st s r hwf hfuel hres
    obtain ⟨fu, rfl⟩ : ∃ fu, fuel = fu + 1 := ⟨fuel - 1, by omega⟩
    cases hres with
    | here hget hsome =>
      simp only [findIdx, hget, hsome, if_true]
    | there hget hdict houter =>
      rename_i f
      simp only [findIdx, hget, hdict, Option.isSome_none, Bool.false_eq_true,
        if_false]
      cases ho : f.outer with
      | none => rw [ho] at houter; cases houter
      | some j =>
        rw [ho] at houter
        have hj : j < env := wfStore_get st env f j hwf hget ho
        exact IH j hj fu st s r hwf (by omega) houter

/-- Fuel adequacy for the reader: with fuel exceeding twice the token
count, `readFT`/`readL` never report `fuelOut`, and a successful read
consumes at least one token.  (`2 * n + 1` budgets one `readL` hand-off
per token plus the final step.) -/
theorem reader_adequate : ∀ (n : Nat) (ts : List String), ts.length ≤ n →
    (∀ fuel, 2 * ts.length + 1 ≤ fuel →
      (∀ ex r, readFT fuel ts = .ok (ex, r) → r.length < ts.length) ∧
      ¬ readFT fuel ts = .error .fuelOut) ∧
    (∀ fuel acc, 2 * ts.length + 2 ≤ fuel →
      (∀ ex r, readL fuel ts acc = .ok (ex, r) → r.length < ts.length) ∧
      ¬ readL fuel ts acc = .error .fuelOut) := by
  intro n
  induction n with
  | zero =>
    intro ts hlen
    have hts : ts = [] := List.length_eq_zero.mp (Nat.le_zero.mp hlen)
    subst hts
    constructor
    · intro fuel hfuel
      obtain ⟨fu, rfl⟩ : ∃ fu, fuel = fu + 1 := ⟨fuel - 1, by omega⟩
      exact ⟨by intro ex r h; simp [readFT] at h, by simp [readFT]⟩
    · intro fuel acc hfuel
      obtain ⟨fu, rfl⟩ : ∃ fu, fuel = fu + 1 := ⟨fuel - 1, by omega⟩
      exact ⟨by intro ex r h; simp [readL] at h, by simp [readL]⟩
  | succ n IH =>
    intro ts hlen
    have hft : ∀ fuel, 2 * ts.length + 1 ≤ fuel →
        (∀ ex r, readFT fuel ts = .ok (ex, r) → r.length < ts.length) ∧
        ¬ readFT fuel ts = .error .fuelOut := by
      cases ts with
      | nil =>
        intro fuel hfuel
        obtain ⟨fu, rfl⟩ : ∃ fu, fuel = fu + 1 := ⟨fuel - 1, by omega⟩
        exact ⟨by intro ex r h; simp [readFT] at h, by simp [readFT]⟩
      | cons t rest =>
        intro fuel hfuel
        simp only [List.length_cons] at hfuel
        obtain ⟨fu, rfl⟩ : ∃ fu, fuel = fu + 1 := ⟨fuel - 1, by omega⟩
        have hrest : rest.length ≤ n := by
          simp only [List.length_cons] at hlen; omega
        by_cases ht : t = "("
        · have hl := (IH rest hrest).2 fu [] (by omega)
          constructor
          · intro ex r h
            simp only [readFT, ht, if_true] at h
            have := hl.1 ex r h
            simp only [List.length_cons]
            omega
          · intro h
            simp only [readFT, ht, if_true] at h
            exact hl.2 h
        · by_cases ht2 : t = ")"
          · exact ⟨by intro ex r h; simp [readFT, ht, ht2] at h,
              by simp [readFT, ht, ht2]⟩
          · constructor
            · intro ex r h
              simp only [readFT, ht, ht2, if_false] at h
              cases h
              simp
            · intro h
              simp [readFT, ht, ht2] at h
    refine ⟨hft, ?_⟩
    cases ts with
    | nil =>
      intro fuel acc hfuel
      obtain ⟨fu, rfl⟩ : ∃ fu, fuel = fu + 1 := ⟨fuel - 1, by omega⟩
      exact ⟨by intro ex r h; simp [readL] at h, by simp [readL]⟩
    | cons t rest =>
      intro fuel acc hfuel
      simp only [List.length_cons] at hfuel
      obtain ⟨fu, rfl⟩ : ∃ fu, fuel = fu + 1 := ⟨fuel - 1, by omega⟩
      have hrest : rest.length ≤ n := by
        simp only [List.length_cons] at hlen; omega
      by_cases ht : t = ")"
      · constructor
        · intro ex r h
          simp only [readL, ht, if_true] at h
          cases h
          simp
        · intro h
          simp [readL, ht] at h
      · have hftc := hft fu (by simp only [List.length_cons]; omega)
        constructor
        · intro ex r h
          simp only [readL, ht, if_false] at h
          cases hcall : readFT fu (t :: rest) with
          | error e => rw [hcall] at h; cases h
          | ok p =>
            obtain ⟨ex', r'⟩ := p
            rw [hcall] at h
            have hr' : r'.length < rest.length + 1 := by
              have := hftc.1 ex' r' hcall
              simpa using this
            have hl := (IH r' (by omega)).2 fu (acc ++ [ex']) (by omega)
            have := hl.1 ex r h
            simp only [List.length_cons]
            omega
        · intro h
          simp only [readL, ht, if_false] at h
          cases hcall : readFT fu (t :: rest) with
          | error e =>
            rw [hcall] at h
            cases h
            exact hftc.2 hcall
          | ok p =>
            obtain ⟨ex', r'⟩ := p
            rw [hcall] at h
            have hr' : r'.length < rest.length + 1 := by
              have := hftc.1 ex' r' hcall
              simpa using this
            have hl := (IH r' (by omega)).2 fu (acc ++ [ex']) (by omega)
            exact hl.2 h

/-- Every failure of the reader's list loop — and of a read that does not
begin with `)` — is the `IndexError` from `tokens[0]`, or fuel
exhaustion: neither path can raise the reader's `SyntaxError`s. -/
theorem reader_err_class : ∀ fuel : Nat,
    (∀ ts acc e, readL fuel ts acc = .error e → e = .indexError ∨ e = .fuelOut) ∧
    (∀ t rest e, ¬ t = ")" → readFT fuel (t :: rest) = .error e →
      e = .indexError ∨ e = .fuelOut) := by
  intro fuel
  induction fuel with
  | zero =>
    constructor
    · intro ts acc e h
      simp only [readL] at h
      cases h
      exact Or.inr rfl
    · intro t rest e _ h
      simp only [readFT] at h
      cases h
      exact Or.inr rfl
  | succ fuel IH =>
    constructor
    · intro ts acc e h
      cases ts with
      | nil =>
        simp only [readL] at h
        cases h
        exact Or.inl rfl
      | cons t rest =>
        by_cases ht : t = ")"
        · simp [readL, ht] at h
        · simp only [readL, ht, if_false] at h
          cases hcall : readFT fuel (t :: rest) with
          | error e2 =>
            rw [hcall] at h
            have he : e2 = e := by injection h
            subst he
            exact IH.2 t rest e2 ht hcall
          | ok p =>
            obtain ⟨ex', r'⟩ := p
            rw [hcall] at h
            exact IH.1 r' (acc ++ [ex']) e h
    · intro t rest e ht h
      by_cases h1 : t = "("
      · simp only [readFT, h1, if_true] at h
        exact IH.1 rest [] e h
      · simp [readFT, h1, ht] at h

/-- Membership in the tokenizer's bracket set. -/
def isBracket (c : Char) : Bool :=
  c = '(' ∨ c = ')' ∨ c = '<' ∨ c = '>'

/-- The per-character effect of the tokenizer's replacement loop. -/
def expandChar (c : Char) : List Char :=
  if isBracket c then [' ', c, ' '] else [c]

/-- `expandChar` mapped over a whole string. -/
def expandAll : List Char → List Char
  | [] => []
  | c :: cs => expandChar c ++ expandAll cs

/-- Single-character replacement distributes over append. -/
theorem replaceBracket_append (b : Char) (xs ys : List Char) :
    replaceBracket b (xs ++ ys) = replaceBracket b xs ++ replaceBracket b ys := by
  induction xs with
  | nil => simp [replaceBracket]
  | cons c cs ih => simp [replaceBracket, ih]

/-- The full replacement loop distributes over append. -/
theorem expandBrackets_append (xs ys : List Char) :
    expandBrackets (xs ++ ys) = expandBrackets xs ++ expandBrackets ys := by
  simp [expandBrackets, brackets, List.foldl, replaceBracket_append]

/-- On one character the replacement loop acts as `expandChar`. -/
theorem expandBrackets_single (c : Char) :
    expandBrackets [c] = expandChar c := by
  by_cases h1 : c = '('
  · subst h1; rfl
  · by_cases h2 : c = ')'
    · subst h2; rfl
    · by_cases h3 : c = '<'
      · subst h3; rfl
      · by_cases h4 : c = '>'
        · subst h4; rfl
        · simp [expandBrackets, brackets, List.foldl, replaceBracket, expandChar,
            isBracket, h1, h2, h3, h4]

/-- The sequential four-bracket replacement loop equals the one-pass
per-character expansion (single-character patterns never overlap). -/
theorem expandBrackets_eq (cs : List Char) : expandBrackets cs = expandAll cs := by
  induction cs with
  | nil => rfl
  | cons c cs ih =>
    have : c :: cs = [c] ++ cs := rfl
    rw [this, expandBrackets_append, expandBrackets_single, ih]
    rfl

/-- Bracket characters are not whitespace. -/
theorem bracket_not_space (c : Char) (h : isBracket c = true) : pySpace c = false := by
  simp only [isBracket, Bool.decide_or, Bool.or_eq_true, decide_eq_true_eq] at h
  rcases h with rfl | rfl | rfl | rfl <;> decide

/-- Core tokenizer property: after bracket expansion, every whitespace-run
token that contains a bracket character is exactly that single character.
The accumulator argument carries the invariant that the partial run
gathered so far is bracket-free. -/
theorem splitWsAux_brackets : ∀ (ds acc : List Char),
    (∀ c ∈ acc, isBracket c = false) →
    ∀ t ∈ splitWsAux (expandAll ds) acc, ∀ b ∈ t, isBracket b = true → t = [b] := by
  intro ds
  induction ds with
  | nil =>
    intro acc hacc t ht b hb hbr
    cases acc with
    | nil => simp [splitWsAux] at ht
    | cons a as =>
      simp only [expandAll, splitWsAux, List.mem_singleton] at ht
      subst ht
      have hmem : b ∈ a :: as := List.mem_reverse.mp hb
      rw [hacc b hmem] at hbr
      cases hbr
  | cons d ds ih =>
    intro acc hacc t ht b hb hbr
    have hsp2 : pySpace ' ' = true := by decide
    by_cases hbd : isBracket d = true
    · have hsp : pySpace d = false := bracket_not_space d hbd
      have hexp : expandAll (d :: ds) = ' ' :: d :: ' ' :: expandAll ds := by
        simp [expandAll, expandChar, hbd]
      rw [hexp] at ht
      cases acc with
      | nil =>
        have hchain : splitWsAux (' ' :: d :: ' ' :: expandAll ds) [] =
            [d] :: splitWsAux (expandAll ds) [] := by
          simp [splitWsAux, hsp, hsp2]
        rw [hchain] at ht
        cases ht with
        | head =>
          have hbd2 : b = d := by simpa using hb
          subst hbd2
          rfl
        | tail _ hmem =>
          exact ih [] (by intro c hc; cases hc) t hmem b hb hbr
      | cons a as =>
        have hchain : splitWsAux (' ' :: d :: ' ' :: expandAll ds) (a :: as) =
            (a :: as).reverse :: [d] :: splitWsAux (expandAll ds) [] := by
          simp [splitWsAux, hsp, hsp2]
        rw [hchain] at ht
        cases ht with
        | head =>
          have hmem : b ∈ a :: as := List.mem_reverse.mp hb
          rw [hacc b hmem] at hbr
          cases hbr
        | tail _ hmem =>
          cases hmem with
          | head =>
            have hbd2 : b = d := by simpa using hb
            subst hbd2
            rfl
          | tail _ hmem2 =>
            exact ih [] (by intro c hc; cases hc) t hmem2 b hb hbr
    · have hexp : expandAll (d :: ds) = d :: expandAll ds := by
        simp [expandAll, expandChar, hbd]
      rw [hexp] at ht
      by_cases hsd : pySpace d = true
      · cases acc with
        | nil =>
          have hchain : splitWsAux (d :: expandAll ds) ([] : List Char) =
              splitWsAux (expandAll ds) [] := by
            simp [splitWsAux, hsd]
          rw [hchain] at ht
          exact ih [] (by intro c hc; cases hc) t ht b hb hbr
        | cons a as =>
          have hchain : splitWsAux (d :: expandAll ds) (a :: as) =
              (a :: as).reverse :: splitWsAux (expandAll ds) [] := by
            simp [splitWsAux, hsd]
          rw [hchain] at ht
          cases ht with
          | head =>
            have hmem : b ∈ a :: as := List.mem_reverse.mp hb
            rw [hacc b hmem] at hbr
            cases hbr
          | tail _ hmem =>
            exact ih [] (by intro c hc; cases hc) t hmem b hb hbr
      · have hchain : splitWsAux (d :: expandAll ds) acc =
            splitWsAux (expandAll ds) (d :: acc) := by
          simp [splitWsAux, hsd]
        rw [hchain] at ht
        refine ih (d :: acc) ?_ t ht b hb hbr
        intro c hc
        cases hc with
        | head => simpa using hbd
        | tail _ hc2 => exact hacc c hc2

/-- Every token of `tokenize` containing a bracket character is that
single character. -/
theorem tokenize_brackets (s : String) (t : String) (ht : t ∈ tokenize s)
    (b : Char) (hb : b ∈ t.data) (hbr : isBracket b = true) :
    t = String.mk [b] := by
  simp only [tokenize, splitWs, List.mem_map] at ht
  obtain ⟨cs, hcs, rfl⟩ := ht
  rw [expandBrackets_eq] at hcs
  have := splitWsAux_brackets s.data [] (by intro c hc; cases hc) cs hcs b hb hbr
  rw [this]

/-- Python 2 `zip` truncates to the shorter input. -/
theorem pyZip_length : ∀ (ks : List Exp) (vs : List Value),
    (pyZip ks vs).length = min ks.length vs.length := by
  intro ks
  induction ks with
  | nil => intro vs; cases vs <;> simp [pyZip]
  | cons k ks ih =>
    intro vs
    cases vs with
    | nil => simp [pyZip]
    | cons v vs => simp [pyZip, ih, Nat.succ_min_succ]

/-- C1: the spec requires `create(parameterNames, argumentValues, outer)`
to fail with ArityError on a count mismatch, and flags the source's
zip-based pairing as an oversight.  The code has no such check: the
environment constructor pairs positionally and silently truncates, so for
parameters `(a b)` and the single argument `1` it binds only `a`, leaves
`b` unbound, raises no error at creation, and the call only fails later —
as an unbound-variable `AttributeError` — when the body references `b`.
This theorem exhibits that code behaviour at the spec's own example. -/
theorem C1_zip_truncates :
    (∀ ks vs, (pyZip ks vs).length = min ks.length vs.length)
    ∧ envInitTable [Exp.sym "a", Exp.sym "b"] [Value.int 1]
        = .ok [(Exp.sym "a", Value.int 1)]
    ∧ dictGet [(Exp.sym "a", Value.int 1)] (Exp.sym "b") = Option.none
    ∧ callValue 6 (Value.closure (Exp.list [Exp.sym "a", Exp.sym "b"]) (Exp.sym "b") 0)
        [Value.int 1] [⟨[], Option.none⟩] = .error .attrNoneFind :=
  ⟨pyZip_length, by decide, by decide, by decide⟩

/-- C2 counterexample: on the token sequence `['(', '1']` — an open list
form exhausted before its close-paren — the reader fails with the
uncaught `IndexError` from `tokens[0]`, which is not the
`SyntaxError('unexpected EOF while reading')` the claim names. -/
theorem C2_eof_counterexample :
    read_from_tokens ["(", "1"] = .error .indexError
    ∧ ¬ ReadErr.indexError = ReadErr.syntaxEofWhileReading := by
  exact ⟨by decide, by decide⟩

/-- C2 (amended): whenever a token sequence that begins an open list form
makes the reader fail, the failure is the uncaught `IndexError` from
reading `tokens[0]` past the end — never a `SyntaxError`; the
`SyntaxError` "unexpected EOF while reading" arises only when
`read_from_tokens` is entered with no tokens at all. -/
theorem C2_open_form_index_error :
    (∀ ts e, read_from_tokens ("(" :: ts) = .error e → e = .indexError)
    ∧ read_from_tokens [] = .error .syntaxEofWhileReading := by
  constructor
  · intro ts e h
    unfold read_from_tokens at h
    simp only [List.length_cons] at h
    rw [show 2 * (ts.length + 1) + 1 = 2 * ts.length + 2 + 1 from by ring] at h
    rw [show readFT (2 * ts.length + 2 + 1) ("(" :: ts) = readL (2 * ts.length + 2) ts []
        from rfl] at h
    rcases (reader_err_class (2 * ts.length + 2)).1 ts [] e h with he | he
    · exact he
    · subst he
      exact absurd h ((reader_adequate ts.length ts (le_refl _)).2
        (2 * ts.length + 2) [] (le_refl _)).2
  · decide

/-- C2 witness: the amended statement applied at the concrete token
sequence `['(', '1']`. -/
theorem C2_open_form_index_error_witness :
    read_from_tokens ["(", "1"] = .error .indexError
    ∧ ReadErr.indexError = ReadErr.indexError :=
  ⟨by decide, C2_open_form_index_error.1 ["1"] ReadErr.indexError (by decide)⟩

/-- C9: evaluating the empty list expression `()` fails in every
environment: the evaluator reaches `x[0]` on an empty Python list and
raises `IndexError`; the empty list is not self-evaluating. -/
theorem C9_empty_list_not_self_evaluating :
    ∀ fuel env st, evalE (fuel + 1) (Exp.list []) env st = .error .indexError :=
  fun _ _ _ => rfl

/-- C10: special-form dispatch inspects only the first element of the
list expression, never the environment: for every store and environment —
in particular ones that rebind `quote`, `if`, `define`, `set!` or
`lambda` to arbitrary values — a list form headed by one of these keyword
symbols is handled by the corresponding special-form rule, not by
procedure application.  The final conjunct shows a store whose global
frame rebinds `quote` to the `car` builtin: `(quote quote)` still returns
the symbol unevaluated. -/
theorem C10_keyword_dispatch :
    (∀ fuel e env st, evalE (fuel + 1) (Exp.list [Exp.sym "quote", e]) env st
        = .ok (expToVal e, st))
    ∧ (∀ fuel t c a env st, evalE (fuel + 1) (Exp.list [Exp.sym "if", t, c, a]) env st =
        match evalE fuel t env st with
        | .error e => .error e
        | .ok (v, st1) => evalE fuel (if pyTruthy v then c else a) env st1)
    ∧ (∀ fuel v e env st,
        evalE (fuel + 1) (Exp.list [Exp.sym "define", Exp.sym v, e]) env st =
        match evalE fuel e env st with
        | .error er => .error er
        | .ok (val, st1) => .ok (Value.none, updFrame st1 env (Exp.sym v) val))
    ∧ (∀ fuel v e env st,
        evalE (fuel + 1) (Exp.list [Exp.sym "set!", Exp.sym v, e]) env st =
        match evalE fuel e env st with
        | .error er => .error er
        | .ok (val, st1) =>
          match findIdx (st1.length + 1) st1 (some env) (Exp.sym v) with
          | .error er => .error er
          | .ok i => .ok (Value.none, updFrame st1 i (Exp.sym v) val))
    ∧ (∀ fuel p b env st, evalE (fuel + 1) (Exp.list [Exp.sym "lambda", p, b]) env st
        = .ok (Value.closure p b env, st))
    ∧ evalE 3 (Exp.list [Exp.sym "quote", Exp.sym "quote"]) 0
        [⟨[(Exp.sym "quote", Value.builtin "car")], Option.none⟩]
      = .ok (Value.sym "quote",
        [⟨[(Exp.sym "quote", Value.builtin "car")], Option.none⟩]) :=
  ⟨fun _ _ _ _ => rfl, fun _ _ _ _ _ _ => rfl, fun _ _ _ _ _ => rfl,
   fun _ _ _ _ _ => rfl, fun _ _ _ _ _ => rfl, by decide⟩

/-- C3: on a well-formed store, a symbol bound in no frame of the chain
makes `find` — and hence both evaluating the symbol as a variable
reference and using it as the target of `set!` — fail with the
unbound-variable error (`AttributeError` at `outer = None`, the spec's
UnboundVariableError); and whenever the chain does contain the symbol,
`find` resolves to the innermost frame containing it. -/
theorem C3_unbound_lookup (st : Store) (env : Nat) (s : String)
    (hwf : wfStore st = true) (henv : env < st.length) :
    (UnboundIn st (Exp.sym s) (some env) →
      findIdx (st.length + 1) st (some env) (Exp.sym s) = .error .attrNoneFind
      ∧ (∀ fuel, evalE (fuel + 1) (Exp.sym s) env st = .error .attrNoneFind)
      ∧ (∀ fuel, evalE (fuel + 2)
          (Exp.list [Exp.sym "set!", Exp.sym s, Exp.int 0]) env st
          = .error .attrNoneFind))
    ∧ (∀ r, ResolvesTo st (Exp.sym s) (some env) r →
        findIdx (st.length + 1) st (some env) (Exp.sym s) = .ok r) := by
  constructor
  · intro hub
    have hfind := findIdx_unbound env (st.length + 1) st s hwf (by omega) hub
    refine ⟨hfind, ?_, ?_⟩
    · intro fuel
      rw [show evalE (fuel + 1) (Exp.sym s) env st =
          (match findIdx (st.length + 1) st (some env) (Exp.sym s) with
           | .error e => .error e
           | .ok i =>
             match st.get? i with
             | Option.none => .error .badRef
             | some f =>
               match dictGet f.table (Exp.sym s) with
               | some v => .ok (v, st)
               | Option.none => .error .keyError) from rfl]
      rw [hfind]
    · intro fuel
      rw [show evalE (fuel + 2)
          (Exp.list [Exp.sym "set!", Exp.sym s, Exp.int 0]) env st =
          (match findIdx (st.length + 1) st (some env) (Exp.sym s) with
           | .error er => .error er
           | .ok i => .ok (Value.none, updFrame st i (Exp.sym s) (Value.int 0)))
          from rfl]
      rw [hfind]
  · intro r hres
    exact findIdx_resolves env (st.length + 1) st s r hwf (by omega) hres

/-- C3 witness: on the one-frame store binding only `x`, looking up the
unbound `y` fails with the unbound-variable error, and `find` on `x`
resolves to the global frame. -/
theorem C3_unbound_lookup_witness :
    (wfStore [⟨[(Exp.sym "x", Value.int 7)], Option.none⟩] = true
      ∧ 0 < ([⟨[(Exp.sym "x", Value.int 7)], Option.none⟩] : Store).length)
    ∧ evalE 4 (Exp.sym "y") 0 [⟨[(Exp.sym "x", Value.int 7)], Option.none⟩]
        = .error .attrNoneFind
    ∧ findIdx 2 [⟨[(Exp.sym "x", Value.int 7)], Option.none⟩] (some 0) (Exp.sym "x")
        = .ok 0 := by
  have hub : UnboundIn [⟨[(Exp.sym "x", Value.int 7)], Option.none⟩] (Exp.sym "y")
      (some 0) :=
    UnboundIn.step (f := ⟨[(Exp.sym "x", Value.int 7)], Option.none⟩)
      rfl (by decide) UnboundIn.root
  have hres : ResolvesTo [⟨[(Exp.sym "x", Value.int 7)], Option.none⟩] (Exp.sym "x")
      (some 0) 0 :=
    ResolvesTo.here (f := ⟨[(Exp.sym "x", Value.int 7)], Option.none⟩)
      rfl (by decide)
  refine ⟨⟨by decide, by decide⟩, ?_, ?_⟩
  · exact ((C3_unbound_lookup _ 0 "y" (by decide) (by decide)).1 hub).2.1 3
  · exact (C3_unbound_lookup _ 0 "x" (by decide) (by decide)).2 0 hres

/-- The spec's closure example `(define add (lambda (a b) (+ a b)))`. -/
def defineAddExp : Exp :=
  .list [.sym "define", .sym "add",
    .list [.sym "lambda", .list [.sym "a", .sym "b"],
      .list [.sym "+", .sym "a", .sym "b"]]]

/-- C4: a `lambda` form evaluates to a Procedure capturing the parameter
list, the body, and a reference to the current environment, leaving the
store untouched; applying a Procedure builds a fresh child frame over the
captured environment and evaluates the body there; and concretely, after
`(define add (lambda (a b) (+ a b)))` in the standard global environment,
`(add 2 3)` evaluates to `5`. -/
theorem C4_lambda_closure :
    (∀ fuel p b env st, evalE (fuel + 1) (Exp.list [Exp.sym "lambda", p, b]) env st
        = .ok (Value.closure p b env, st))
    ∧ (∀ fuel parms body cenv args st,
        callValue (fuel + 1) (Value.closure parms body cenv) args st =
          match paramKeys parms with
          | .error e => .error e
          | .ok ks =>
            match envInitTable ks args with
            | .error e => .error e
            | .ok table => evalE fuel body st.length (st ++ [⟨table, some cenv⟩]))
    ∧ (∃ st1, evalE 30 defineAddExp 0 globalStore = .ok (Value.none, st1)
        ∧ ∃ st2, evalE 30 (Exp.list [Exp.sym "add", Exp.int 2, Exp.int 3]) 0 st1
            = .ok (Value.int 5, st2)) :=
  ⟨fun _ _ _ _ _ => rfl, fun _ _ _ _ _ _ => rfl, ⟨_, rfl, _, rfl⟩⟩

/-- C5 counterexample: the claim's truthiness — "anything other than
false/zero/empty-list" — miscounts Python's `None`, the value of a
`define` form.  `(if (define y 5) 1 2)` parses, its test evaluates to
`None`, which is none of false, zero or the empty list, yet the evaluator
selects the alternate branch and returns `2`, where the claim's
truthiness predicts the consequent `1`. -/
theorem C5_truthiness_counterexample :
    parseE "(if (define y 5) 1 2)" = .ok (Exp.list [Exp.sym "if",
      Exp.list [Exp.sym "define", Exp.sym "y", Exp.int 5], Exp.int 1, Exp.int 2])
    ∧ evalE 10 (Exp.list [Exp.sym "define", Exp.sym "y", Exp.int 5]) 0
        [⟨[], Option.none⟩]
        = .ok (Value.none, [⟨[(Exp.sym "y", Value.int 5)], Option.none⟩])
    ∧ evalE 10 (Exp.list [Exp.sym "if",
        Exp.list [Exp.sym "define", Exp.sym "y", Exp.int 5], Exp.int 1, Exp.int 2]) 0
        [⟨[], Option.none⟩]
        = .ok (Value.int 2, [⟨[(Exp.sym "y", Value.int 5)], Option.none⟩])
    ∧ ¬ Value.none = Value.bool false
    ∧ ¬ Value.none = Value.int 0
    ∧ ¬ Value.none = Value.vlist [] := by
  exact ⟨by decide, by decide, by decide, by decide, by decide, by decide⟩

/-- C5 (amended): the `if` form evaluates the test and then exactly one
branch, the consequent when the test value is truthy under Python
truthiness — anything other than false, numeric zero, the empty list,
the `None` unit marker, or the empty string — otherwise the alternate;
the unselected branch never influences the result (it is not evaluated),
and `(if (> 3 2) 1 2)` evaluates to `1` in the standard environment. -/
theorem C5_if_single_branch :
    (∀ fuel t c a env st, evalE (fuel + 1) (Exp.list [Exp.sym "if", t, c, a]) env st =
        match evalE fuel t env st with
        | .error e => .error e
        | .ok (v, st1) => evalE fuel (if pyTruthy v then c else a) env st1)
    ∧ (∀ fuel t c a a2 env st v st1,
        evalE fuel t env st = .ok (v, st1) → pyTruthy v = true →
        evalE (fuel + 1) (Exp.list [Exp.sym "if", t, c, a]) env st
          = evalE (fuel + 1) (Exp.list [Exp.sym "if", t, c, a2]) env st)
    ∧ (∀ fuel t c c2 a env st v st1,
        evalE fuel t env st = .ok (v, st1) → pyTruthy v = false →
        evalE (fuel + 1) (Exp.list [Exp.sym "if", t, c, a]) env st
          = evalE (fuel + 1) (Exp.list [Exp.sym "if", t, c2, a]) env st)
    ∧ (∃ x, parseE "(if (> 3 2) 1 2)" = .ok x
        ∧ ∃ st1, evalE 30 x 0 globalStore = .ok (Value.int 1, st1)) := by
  refine ⟨fun _ _ _ _ _ _ => rfl, ?_, ?_, ?_⟩
  · intro fuel t c a a2 env st v st1 h htr
    rw [show evalE (fuel + 1) (Exp.list [Exp.sym "if", t, c, a]) env st =
        (match evalE fuel t env st with
         | .error e => .error e
         | .ok (v2, st2) => evalE fuel (if pyTruthy v2 then c else a) env st2) from rfl]
    rw [show evalE (fuel + 1) (Exp.list [Exp.sym "if", t, c, a2]) env st =
        (match evalE fuel t env st with
         | .error e => .error e
         | .ok (v2, st2) => evalE fuel (if pyTruthy v2 then c else a2) env st2) from rfl]
    rw [h]
    simp [htr]
  · intro fuel t c c2 a env st v st1 h htr
    rw [show evalE (fuel + 1) (Exp.list [Exp.sym "if", t, c, a]) env st =
        (match evalE fuel t env st with
         | .error e => .error e
         | .ok (v2, st2) => evalE fuel (if pyTruthy v2 then c else a) env st2) from rfl]
    rw [show evalE (fuel + 1) (Exp.list [Exp.sym "if", t, c2, a]) env st =
        (match evalE fuel t env st with
         | .error e => .error e
         | .ok (v2, st2) => evalE fuel (if pyTruthy v2 then c2 else a) env st2) from rfl]
    rw [h]
    simp [htr]
  · exact ⟨Exp.list [Exp.sym "if", Exp.list [Exp.sym ">", Exp.int 3, Exp.int 2],
      Exp.int 1, Exp.int 2], by decide, _, rfl⟩

/-- C5 witness: branch irrelevance applied with a truthy literal test —
replacing the unselected alternate branch does not change the result. -/
theorem C5_if_single_branch_witness :
    (evalE 1 (Exp.int 1) 0 [⟨[], Option.none⟩]
      = .ok (Value.int 1, [⟨[], Option.none⟩])
      ∧ pyTruthy (Value.int 1) = true)
    ∧ evalE 2 (Exp.list [Exp.sym "if", Exp.int 1, Exp.int 7, Exp.int 8]) 0
        [⟨[], Option.none⟩]
      = evalE 2 (Exp.list [Exp.sym "if", Exp.int 1, Exp.int 7, Exp.int 9]) 0
        [⟨[], Option.none⟩] :=
  ⟨⟨by decide, by decide⟩,
   C5_if_single_branch.2.1 1 (Exp.int 1) (Exp.int 7) (Exp.int 8) (Exp.int 9) 0
     [⟨[], Option.none⟩] (Value.int 1) [⟨[], Option.none⟩] (by decide) (by decide)⟩

/-- C6 counterexample: the claim promises that evaluating a `define` form
leaves every binding of every ancestor frame unchanged, but the value
sub-expression is evaluated first and may itself mutate an ancestor.  In
a child of a global frame binding `y ↦ 1`, evaluating
`(define x (set! y 2))` succeeds and leaves the global frame's `y` bound
to `2`: the ancestor frame changed. -/
theorem C6_define_counterexample :
    evalE 10 (Exp.list [Exp.sym "define", Exp.sym "x",
        Exp.list [Exp.sym "set!", Exp.sym "y", Exp.int 2]]) 1
        [⟨[(Exp.sym "y", Value.int 1)], Option.none⟩, ⟨[], some 0⟩]
      = .ok (Value.none,
        [⟨[(Exp.sym "y", Value.int 2)], Option.none⟩,
         ⟨[(Exp.sym "x", Value.none)], some 0⟩])
    ∧ ¬ ([⟨[(Exp.sym "y", Value.int 1)], Option.none⟩, ⟨[], some 0⟩] : Store).get? 0
        = ([⟨[(Exp.sym "y", Value.int 2)], Option.none⟩,
            ⟨[(Exp.sym "x", Value.none)], some 0⟩] : Store).get? 0 := by
  exact ⟨by decide, by decide⟩

/-- C6 (amended): the binding step of `define` touches only the innermost
frame — evaluating `(define v e)` first evaluates `e` (whose own effects
may reach any frame) and then updates just the current frame's binding
for `v`: relative to the store left by the value sub-expression, every
frame other than the current one is unchanged. -/
theorem C6_define_innermost (fuel : Nat) (v : String) (e : Exp) (env : Nat)
    (st st1 : Store) (val : Value)
    (h : evalE fuel e env st = .ok (val, st1)) :
    evalE (fuel + 1) (Exp.list [Exp.sym "define", Exp.sym v, e]) env st
      = .ok (Value.none, updFrame st1 env (Exp.sym v) val)
    ∧ ∀ i, ¬ i = env →
        (updFrame st1 env (Exp.sym v) val).get? i = st1.get? i := by
  constructor
  · rw [show evalE (fuel + 1) (Exp.list [Exp.sym "define", Exp.sym v, e]) env st =
        (match evalE fuel e env st with
         | .error er => .error er
         | .ok (val2, st2) => .ok (Value.none, updFrame st2 env (Exp.sym v) val2))
        from rfl]
    rw [h]
  · intro i hi
    exact updFrame_get_other st1 env i (Exp.sym v) val (fun hh => hi hh.symm)

/-- C6 witness: the amended statement at `(define x 5)` in a one-frame
store. -/
theorem C6_define_innermost_witness :
    evalE 1 (Exp.int 5) 0 [⟨[], Option.none⟩]
      = .ok (Value.int 5, [⟨[], Option.none⟩])
    ∧ (evalE 2 (Exp.list [Exp.sym "define", Exp.sym "x", Exp.int 5]) 0
        [⟨[], Option.none⟩]
        = .ok (Value.none, updFrame [⟨[], Option.none⟩] 0 (Exp.sym "x") (Value.int 5))
      ∧ ∀ i, ¬ i = 0 →
          (updFrame [⟨[], Option.none⟩] 0 (Exp.sym "x") (Value.int 5)).get? i
            = ([⟨[], Option.none⟩] : Store).get? i) :=
  ⟨by decide,
   C6_define_innermost 1 "x" (Exp.int 5) 0 [⟨[], Option.none⟩] [⟨[], Option.none⟩]
     (Value.int 5) (by decide)⟩

/-- C7: the definition/lookup round trip.  In any valid environment of any
store, evaluating `(define x 5)` and then evaluating the symbol `x` in
the same environment yields `5`. -/
theorem C7_define_then_lookup (x : String) (env : Nat) (st : Store)
    (henv : env < st.length) :
    ∃ st1, evalE 2 (Exp.list [Exp.sym "define", Exp.sym x, Exp.int 5]) env st
        = .ok (Value.none, st1)
      ∧ ∀ fuel, evalE (fuel + 1) (Exp.sym x) env st1 = .ok (Value.int 5, st1) := by
  have hf : st.get? env = some (st.get ⟨env, henv⟩) := List.get?_eq_get henv
  set f := st.get ⟨env, henv⟩ with hfdef
  set st1 := st.set env ⟨dictSet f.table (Exp.sym x) (Value.int 5), f.outer⟩ with hst1
  have hupd : updFrame st env (Exp.sym x) (Value.int 5) = st1 := by
    unfold updFrame
    rw [hf]
  have hdef : evalE 2 (Exp.list [Exp.sym "define", Exp.sym x, Exp.int 5]) env st
      = .ok (Value.none, updFrame st env (Exp.sym x) (Value.int 5)) := rfl
  have hlen1 : st1.length = st.length := by
    rw [hst1]; exact List.length_set st env _
  have hget1 : st1.get? env
      = some ⟨dictSet f.table (Exp.sym x) (Value.int 5), f.outer⟩ := by
    rw [hst1]; exact get?_set_self_fr st env _ henv
  have hdg : dictGet (dictSet f.table (Exp.sym x) (Value.int 5)) (Exp.sym x)
      = some (Value.int 5) := dictGet_dictSet_self f.table (Exp.sym x) (Value.int 5)
  have hfind : findIdx (st1.length + 1) st1 (some env) (Exp.sym x) = .ok env := by
    rw [show findIdx (st1.length + 1) st1 (some env) (Exp.sym x) =
        (match st1.get? env with
         | Option.none => .error .badRef
         | some fr =>
           if (dictGet fr.table (Exp.sym x)).isSome then .ok env
           else findIdx st1.length st1 fr.outer (Exp.sym x)) from rfl]
    rw [hget1]
    simp [hdg]
  refine ⟨st1, by rw [hdef, hupd], ?_⟩
  intro fuel
  rw [show evalE (fuel + 1) (Exp.sym x) env st1 =
      (match findIdx (st1.length + 1) st1 (some env) (Exp.sym x) with
       | .error e => .error e
       | .ok i =>
         match st1.get? i with
         | Option.none => .error .badRef
         | some fr =>
           match dictGet fr.table (Exp.sym x) with
           | some v => .ok (v, st1)
           | Option.none => .error .keyError) from rfl]
  rw [hfind]
  simp only []
  rw [hget1]
  simp [hdg]

/-- C7 witness: the round trip at `x` in a one-frame store. -/
theorem C7_define_then_lookup_witness :
    0 < ([⟨[], Option.none⟩] : Store).length
    ∧ ∃ st1, evalE 2 (Exp.list [Exp.sym "define", Exp.sym "x", Exp.int 5]) 0
        [⟨[], Option.none⟩] = .ok (Value.none, st1)
      ∧ ∀ fuel, evalE (fuel + 1) (Exp.sym "x") 0 st1 = .ok (Value.int 5, st1) :=
  ⟨by decide, C7_define_then_lookup "x" 0 [⟨[], Option.none⟩] (by decide)⟩

/-- C8: the tokenizer surrounds each of `(`, `)`, `<`, `>` with spaces
before splitting, so every produced token containing `<` or `>` is
exactly that one-character token; hence no source text can ever produce
the tokens `<=` or `>=` — although the standard environment binds both
names to comparison builtins, making them unreachable from program
text. -/
theorem C8_angle_tokens :
    (∀ s t, t ∈ tokenize s → ('<' ∈ t.data ∨ '>' ∈ t.data) → t = "<" ∨ t = ">")
    ∧ (∀ s, ¬ "<=" ∈ tokenize s ∧ ¬ ">=" ∈ tokenize s)
    ∧ (dictGet standardTable (Exp.sym "<=")).isSome = true
    ∧ (dictGet standardTable (Exp.sym ">=")).isSome = true := by
  have key : ∀ s t, t ∈ tokenize s → ('<' ∈ t.data ∨ '>' ∈ t.data) →
      t = "<" ∨ t = ">" := by
    intro s t ht hb
    cases hb with
    | inl h =>
      have heq := tokenize_brackets s t ht '<' h (by decide)
      exact Or.inl heq
    | inr h =>
      have heq := tokenize_brackets s t ht '>' h (by decide)
      exact Or.inr heq
  refine ⟨key, ?_, by decide, by decide⟩
  intro s
  constructor
  · intro hmem
    rcases key s "<=" hmem (Or.inl (by decide)) with h | h
    · exact absurd h (by decide)
    · exact absurd h (by decide)
  · intro hmem
    rcases key s ">=" hmem (Or.inr (by decide)) with h | h
    · exact absurd h (by decide)
    · exact absurd h (by decide)

/-- C8 witness: the bracket-token property applied to the source text
`a>=b`, whose `>` tokenizes alone. -/
theorem C8_angle_tokens_witness :
    (">" ∈ tokenize "a>=b" ∧ ('<' ∈ (">" : String).data ∨ '>' ∈ (">" : String).data))
    ∧ ((">" : String) = "<" ∨ (">" : String) = ">") :=
  ⟨⟨by decide, by decide⟩,
   C8_angle_tokens.1 "a>=b" ">" (by decide) (by decide)⟩
